import Mathlib

/-
Verification of the fyrna/cli command-line micro-framework against its
natural-language specification.

The Go source is shallowly embedded: Go maps keyed by strings become
association lists (`List (String × α)`), fallible functions return
`Except String`, user callbacks are modelled by their observable outcome
(`CbRes`: normal return, error return, or runtime panic), and side effects
on the output streams are modelled as an explicit event trace
(`List Event`).  Machine integers carried by flags become `Int`.
-/

namespace FyrnaCli

/-! ## Association-list model of Go string-keyed maps

Go maps have at most one binding per key; the embedding uses association
lists, where `assocFind` returns the first binding, `assocSet` mirrors the
map assignment `m[k] = v`, and `assocErase` mirrors `delete(m, k)`. -/

/-- Lookup of a key in an association list (Go `v, ok := m[k]`). -/
def assocFind {α : Type} : List (String × α) → String → Option α
  | [], _ => none
  | (k, v) :: rest, s => if k = s then some v else assocFind rest s

/-- Map assignment `m[k] = v`: replaces the binding when the key is
present, otherwise appends a new binding. -/
def assocSet {α : Type} : List (String × α) → String → α → List (String × α)
  | [], k, v => [(k, v)]
  | (k0, v0) :: rest, k, v =>
    if k0 = k then (k, v) :: rest else (k0, v0) :: assocSet rest k v

/-- Map deletion `delete(m, k)`: removes every binding of the key (a Go
map holds at most one). -/
def assocErase {α : Type} : List (String × α) → String → List (String × α)
  | [], _ => []
  | (k0, v0) :: rest, k =>
    if k0 = k then assocErase rest k else (k0, v0) :: assocErase rest k

theorem assocFind_assocSet_self {α : Type} (l : List (String × α)) (k : String) (v : α) :
    assocFind (assocSet l k v) k = some v := by
  induction l with
  | nil => simp [assocFind, assocSet]
  | cons hd tl ih =>
    obtain ⟨k0, v0⟩ := hd
    by_cases h : k0 = k <;> simp [assocFind, assocSet, h, ih]

theorem assocFind_assocErase_self {α : Type} (l : List (String × α)) (k : String) :
    assocFind (assocErase l k) k = none := by
  induction l with
  | nil => simp [assocFind, assocErase]
  | cons hd tl ih =>
    obtain ⟨k0, v0⟩ := hd
    by_cases h : k0 = k <;> simp [assocFind, assocErase, h, ih]

theorem assocFind_assocErase_ne {α : Type} (l : List (String × α)) (k p : String)
    (h : p ≠ k) : assocFind (assocErase l k) p = assocFind l p := by
  induction l with
  | nil => simp [assocErase]
  | cons hd tl ih =>
    obtain ⟨k0, v0⟩ := hd
    by_cases h0 : k0 = k
    · subst h0
      simp [assocErase, assocFind, Ne.symm h, ih]
    · by_cases h1 : k0 = p
      · subst h1
        simp [assocErase, assocFind, h0]
      · simp [assocErase, assocFind, h0, h1, ih]

theorem assocFind_append_left {α : Type} (l1 l2 : List (String × α)) (k : String)
    (h : assocFind l1 k = none) :
    assocFind (l1 ++ l2) k = assocFind l2 k := by
  induction l1 with
  | nil => simp
  | cons hd tl ih =>
    obtain ⟨k0, v0⟩ := hd
    by_cases h0 : k0 = k
    · simp [assocFind, h0] at h
    · simp [assocFind, h0] at h ⊢
      exact ih h

theorem assocFind_singleton_self {α : Type} (k : String) (v : α) :
    assocFind [(k, v)] k = some v := by simp [assocFind]

theorem assocFind_singleton_ne {α : Type} (k p : String) (v : α) (h : p ≠ k) :
    assocFind [(k, v)] p = none := by
  simp [assocFind, Ne.symm h]

/-! ## Argument view (args.go)

`Args` wraps the positional (non-flag) arguments; `Args.Get` returns the
i-th positional argument, or the empty string when the (Go `int`) index is
negative or out of bounds. -/

/-- Positional (non-flag) arguments of a command. -/
abbrev Args := List String

/-- Get returns the i-th positional argument or the empty string if the
index is invalid (`i < 0 || i >= len(a)` in the source). -/
def Args.Get (a : Args) (i : Int) : String :=
  if i < 0 || (a.length : Int) ≤ i then "" else a.getD i.toNat ""

/-- C10: Args.Get is total over all integer indices: it returns the i-th
positional argument when `0 ≤ i < length`, and the empty string for every
negative or out-of-bounds index; being a total Lean function, it never
faults. -/
theorem argsGet_total (a : Args) (i : Int) :
    ((i < 0 ∨ (a.length : Int) ≤ i) → Args.Get a i = "") ∧
    (0 ≤ i → i < (a.length : Int) → Args.Get a i = a.getD i.toNat "") := by
  constructor
  · intro h
    rcases h with h | h <;> simp [Args.Get, h]
  · intro h1 h2
    have hne : ¬ i < 0 := not_lt.mpr h1
    have hne2 : ¬ (a.length : Int) ≤ i := not_le.mpr h2
    simp [Args.Get, hne, hne2]

/-- Witness for C10 at concrete inputs: index 1 of a two-element view is
the second element, and index -1 is the empty string. -/
theorem argsGet_total_witness :
    Args.Get ["x", "y"] 1 = "y" ∧ Args.Get ["x", "y"] (-1) = "" := by
  constructor
  · have h := (argsGet_total ["x", "y"] 1).2 (by decide) (by decide)
    simpa using h
  · exact (argsGet_total ["x", "y"] (-1)).1 (Or.inl (by decide))

/-! ## Integer flag (flags.go)

`intFlag` holds a name, default/bound value and a numeric range; after
parsing, `Validate` rejects a bound value outside `[min, max]`. -/

/-- Integer flag descriptor (`intFlag` in flags.go); `defVal` is the `def`
field, which after parsing holds the bound value. -/
structure IntFlag where
  name : String := ""
  usage : String := ""
  short : List String := []
  defVal : Int := 0
  min : Int := 0
  max : Int := 0

/-- Range sets the inclusive bounds of an integer flag. -/
def IntFlag.Range (f : IntFlag) (mn mx : Int) : IntFlag :=
  { f with min := mn, max := mx }

/-- Validate returns an out-of-range error when the bound value lies
outside `[min, max]`, and no error otherwise. -/
def IntFlag.Validate (f : IntFlag) : Option String :=
  if f.defVal < f.min || f.defVal > f.max then
    some ("flag -" ++ f.name ++ " value " ++ toString f.defVal ++
      " out of range [" ++ toString f.min ++ "," ++ toString f.max ++ "]")
  else none

/-- C8: for every integer flag configured with range [1,10], validation of
the post-parse bound value rejects 0 and 11 with an out-of-range error and
accepts the boundary values 1 and 10 with no error. -/
theorem intFlag_range_boundaries (f : IntFlag) :
    (IntFlag.Validate { f.Range 1 10 with defVal := 0 }).isSome = true ∧
    (IntFlag.Validate { f.Range 1 10 with defVal := 11 }).isSome = true ∧
    IntFlag.Validate { f.Range 1 10 with defVal := 1 } = none ∧
    IntFlag.Validate { f.Range 1 10 with defVal := 10 } = none := by
  refine ⟨?_, ?_, ?_, ?_⟩ <;> simp [IntFlag.Validate, IntFlag.Range]

/-! ## Hook manager (hook store file)

Handlers are registered per named event and triggered in registration
order; a handler is modelled by an identifier together with its observable
outcome (`none` = normal return, `some e` = error `e`). -/

/-- A registered hook handler: an identifier plus the outcome it produces
when invoked. -/
structure Handler where
  id : Nat
  res : Option String

/-- HookManager holds the per-event ordered handler lists. -/
structure HookManager where
  handlers : List (String × List Handler) := []

/-- Register appends the handler to the event's list
(`h.handlers[event] = append(h.handlers[event], handler)`). -/
def HookManager.register (m : HookManager) (event : String) (h : Handler) :
    HookManager :=
  { m with handlers :=
      assocSet m.handlers event ((assocFind m.handlers event).getD [] ++ [h]) }

/-- Invoke handlers in order, stopping at the first error; returns the
identifiers invoked, in order, together with the error (if any). -/
def runHandlers : List Handler → List Nat × Option String
  | [] => ([], none)
  | h :: rest =>
    match h.res with
    | some e => ([h.id], some e)
    | none =>
      let r := runHandlers rest
      (h.id :: r.1, r.2)

/-- Trigger looks up the event's handlers and runs them in order; an event
with no entry returns immediately with no error. -/
def HookManager.trigger (m : HookManager) (event : String) :
    List Nat × Option String :=
  match assocFind m.handlers event with
  | none => ([], none)
  | some hs => runHandlers hs

theorem runHandlers_characterisation (hs : List Handler) :
    runHandlers hs =
      ((hs.takeWhile (fun h => h.res.isNone)).map (fun h => h.id) ++
        (((hs.dropWhile (fun h => h.res.isNone)).head?.map (fun h => h.id)).toList),
       (hs.dropWhile (fun h => h.res.isNone)).head?.bind (fun h => h.res)) := by
  induction hs with
  | nil => simp [runHandlers]
  | cons h rest ih =>
    cases hres : h.res with
    | some e => simp [runHandlers, hres, List.takeWhile, List.dropWhile]
    | none => simp [runHandlers, hres, List.takeWhile, List.dropWhile, ih]

/-- C9: triggering an event runs its registered handlers in registration
order: every handler before the first failing one is invoked (in order),
the first handler returning an error stops the rest and its error is
returned, an event with no handler entry (or an empty list) returns no
error, and registration appends to the event's list, preserving order. -/
theorem hook_trigger_spec (m : HookManager) (event : String) :
    (assocFind m.handlers event = none → m.trigger event = ([], none)) ∧
    (∀ hs, assocFind m.handlers event = some hs →
      m.trigger event =
        ((hs.takeWhile (fun h => h.res.isNone)).map (fun h => h.id) ++
          (((hs.dropWhile (fun h => h.res.isNone)).head?.map (fun h => h.id)).toList),
         (hs.dropWhile (fun h => h.res.isNone)).head?.bind (fun h => h.res))) ∧
    (∀ h, assocFind (m.register event h).handlers event =
      some ((assocFind m.handlers event).getD [] ++ [h])) := by
  refine ⟨?_, ?_, ?_⟩
  · intro h
    simp [HookManager.trigger, h]
  · intro hs h
    simp [HookManager.trigger, h, runHandlers_characterisation]
  · intro h
    simp [HookManager.register, assocFind_assocSet_self]

/-- Witness for C9 at a concrete manager: two ok handlers, then a failing
one, then one more; the first three run in order, the error of the third
is returned, and an unregistered event yields no error. -/
theorem hook_trigger_spec_witness :
    HookManager.trigger
        ⟨[("ev", [⟨0, none⟩, ⟨1, none⟩, ⟨2, some "stop"⟩, ⟨3, none⟩])]⟩ "ev" =
      ([0, 1, 2], some "stop") ∧
    HookManager.trigger
        ⟨[("ev", [⟨0, none⟩, ⟨1, none⟩, ⟨2, some "stop"⟩, ⟨3, none⟩])]⟩ "other" =
      ([], none) := by
  constructor
  · have h := (hook_trigger_spec
      ⟨[("ev", [⟨0, none⟩, ⟨1, none⟩, ⟨2, some "stop"⟩, ⟨3, none⟩])]⟩ "ev").2.1
      [⟨0, none⟩, ⟨1, none⟩, ⟨2, some "stop"⟩, ⟨3, none⟩] rfl
    simpa using h
  · exact (hook_trigger_spec
      ⟨[("ev", [⟨0, none⟩, ⟨1, none⟩, ⟨2, some "stop"⟩, ⟨3, none⟩])]⟩ "other").1
      rfl

/-! ## Commands and the command tree (cli.go)

A user callback (Before, Action, After) is modelled by its observable
outcome; a command carries its metadata, the three optional callbacks and
an optional flag-set parser (`Flags *flag.FlagSet`, `none` = nil). -/

/-- Outcome of one user callback invocation: normal return, error return,
or a runtime panic carrying the panic value. -/
inductive CbRes where
  | ok : CbRes
  | err (e : String) : CbRes
  | panics (v : String) : CbRes
deriving DecidableEq, Repr

/-- Command: the runnable node descriptor of cli.go.  Callbacks are
modelled by their outcome (`none` = nil callback); `flagsParse` models the
optional `Flags *flag.FlagSet` by its parse behaviour on an argument list
(`none` = nil, meaning a fresh empty flag set is used). -/
structure Cmd where
  name : String := ""
  aliases : List String := []
  usage : String := ""
  short : String := ""
  long : String := ""
  category : String := ""
  before : Option CbRes := none
  action : Option CbRes := none
  after : Option CbRes := none
  flagsParse : Option (List String → Except String (List String)) := none

/-- Internal tree node: an optional owned command plus the child map. -/
inductive Node where
  | mk (cmd : Option Cmd) (subs : List (String × Node))

/-- Optional command owned by the node. -/
def Node.cmd : Node → Option Cmd
  | .mk c _ => c

/-- Child map of the node. -/
def Node.subs : Node → List (String × Node)
  | .mk _ s => s

/-- Resolution: walk from the node consuming one segment per level while a
matching child exists; return the node reached together with the segments
from the first unmatched one (inclusive). -/
def Node.get : Node → List String → Node × List String
  | n, [] => (n, [])
  | n, p :: rest =>
    match assocFind n.subs p with
    | none => (n, p :: rest)
    | some next => Node.get next rest

theorem Node.get_stop (n : Node) (p : String) (rest : List String)
    (h : assocFind n.subs p = none) :
    Node.get n (p :: rest) = (n, p :: rest) := by
  simp [Node.get, h]

theorem Node.get_step (n : Node) (p : String) (rest : List String) (child : Node)
    (h : assocFind n.subs p = some child) :
    Node.get n (p :: rest) = Node.get child rest := by
  simp [Node.get, h]

/-- Strict walk used to specify `Node.get`: follows children for every
segment and fails as soon as one is missing. -/
def Node.walk : Node → List String → Option Node
  | n, [] => some n
  | n, p :: rest =>
    match assocFind n.subs p with
    | none => none
    | some next => Node.walk next rest

/-- C4: resolution consumes a maximal matched path: there is a consumed
count k such that the strict walk over the first k segments reaches the
returned node, the unconsumed output is exactly the suffix from position k
(the first unmatched segment, inclusive, when one exists has no matching
child at the returned node), and zero unconsumed segments occur exactly
when the whole path walks through (a full match). -/
theorem get_resolution_spec (n : Node) (parts : List String) :
    ∃ k m, k ≤ parts.length ∧
      Node.walk n (parts.take k) = some m ∧
      Node.get n parts = (m, parts.drop k) ∧
      (∀ s rest2, parts.drop k = s :: rest2 → assocFind m.subs s = none) ∧
      ((Node.get n parts).2 = [] ↔ (Node.walk n parts).isSome = true) := by
  induction parts generalizing n with
  | nil =>
    refine ⟨0, n, Nat.le_refl 0, rfl, rfl, ?_, ?_⟩
    · intro s rest2 h
      cases h
    · simp [Node.get, Node.walk]
  | cons p rest ih =>
    cases hf : assocFind n.subs p with
    | none =>
      refine ⟨0, n, Nat.zero_le _, rfl, ?_, ?_, ?_⟩
      · simp [Node.get, hf]
      · intro s rest2 h
        cases h
        exact hf
      · simp [Node.get, Node.walk, hf]
    | some next =>
      obtain ⟨k, m, hk, hwalk, hget, hcond, hiff⟩ := ih next
      refine ⟨k + 1, m, Nat.succ_le_succ hk, ?_, ?_, ?_, ?_⟩
      · simpa [Node.walk, hf] using hwalk
      · simpa [Node.get, hf] using hget
      · intro s rest2 h
        exact hcond s rest2 (by simpa using h)
      · simpa [Node.get, Node.walk, hf] using hiff

/-- Witness for C4 at a concrete tree and path: the tree has a chain
a -> b and resolution of ["a", "x", "y"] stops below "a". -/
theorem get_resolution_spec_witness :
    ∃ k m, k ≤ (["a", "x", "y"] : List String).length ∧
      Node.walk (Node.mk none [("a", Node.mk none [("b", Node.mk none [])])])
          ((["a", "x", "y"] : List String).take k) = some m ∧
      Node.get (Node.mk none [("a", Node.mk none [("b", Node.mk none [])])])
          ["a", "x", "y"] = (m, (["a", "x", "y"] : List String).drop k) ∧
      (∀ s rest2, (["a", "x", "y"] : List String).drop k = s :: rest2 →
        assocFind m.subs s = none) ∧
      ((Node.get (Node.mk none [("a", Node.mk none [("b", Node.mk none [])])])
          ["a", "x", "y"]).2 = [] ↔
        (Node.walk (Node.mk none [("a", Node.mk none [("b", Node.mk none [])])])
          ["a", "x", "y"]).isSome = true) :=
  get_resolution_spec (Node.mk none [("a", Node.mk none [("b", Node.mk none [])])])
    ["a", "x", "y"]

/-! ## Registration (add / isBuiltin)

`add` splits the path on single spaces, walks the tree down to the parent
position of the final segment exactly as `get` does, then inserts the
command there; an occupied final name fails with a duplicate-command error
unless the name is a builtin, in which case the existing node is deleted
and replaced. -/

/-- Internal sentinel path designating the root override. -/
def rootCommandName : String := ""

/-- Split a character list at every occurrence of the separator character
(the semantics of Go `strings.Split` with a one-character separator: no
collapsing of adjacent separators, and the empty input yields one empty
segment). -/
def splitOnChar (c : Char) : List Char → List (List Char)
  | [] => [[]]
  | x :: rest =>
    let r := splitOnChar c rest
    if x = c then [] :: r
    else
      match r with
      | [] => [[x]]
      | seg :: segs => (x :: seg) :: segs

/-- Path splitting `strings.Split(path, " ")`. -/
def splitSpace (s : String) : List String :=
  (splitOnChar ' ' s.data).map fun seg => String.mk seg

/-- Reserved builtin command names (the switch in the later revision of
cli.go: "version" and "help"; the earlier revision also lists
"verbose"). -/
def isBuiltin (name : String) : Bool :=
  if name = "version" then true
  else if name = "help" then true
  else false

/-- Insert `cmd` under `name` at node `n`: an occupied non-builtin name is
a duplicate-command error; an occupied builtin name is deleted first
(`delete(cur.subs, name)`) and then the assignment
`cur.subs[name] = &node{cmd, empty}` is performed, with `cmd.Name` set to
the final segment. -/
def insertHere (pathFull : String) (n : Node) (name : String) (cmd : Cmd) :
    Except String Node :=
  match assocFind n.subs name with
  | some _ =>
    if isBuiltin name then
      Except.ok (Node.mk n.cmd (assocErase n.subs name ++
        [(name, Node.mk (some { cmd with name := name }) [])]))
    else
      Except.error ("duplicate command: " ++ pathFull)
  | none =>
    Except.ok (Node.mk n.cmd (n.subs ++
      [(name, Node.mk (some { cmd with name := name }) [])]))

/-- Registration walk: follow the leading segments while a matching child
exists (the same stopping rule as `Node.get`, mirroring
`cur, _ := a.root.get(parts[:len(parts)-1])`), then insert at the node
reached, rebuilding the spine. -/
def addWalk (pathFull : String) (cmd : Cmd) :
    Node → List String → String → Except String Node
  | n, [], name => insertHere pathFull n name cmd
  | n, p :: rest, name =>
    match assocFind n.subs p with
    | none => insertHere pathFull n name cmd
    | some child =>
      match addWalk pathFull cmd child rest name with
      | Except.error e => Except.error e
      | Except.ok c2 => Except.ok (Node.mk n.cmd (assocSet n.subs p c2))

/-- Application state needed by registration and dispatch: identity and
banner fields, the root tree node, whether a panic handler is configured,
and the outcome of the configured not-found handler (the default handler
prints the message and returns nil, i.e. `none`). -/
structure App where
  name : String := ""
  version : String := ""
  desc : String := ""
  root : Node := Node.mk none []
  panicHandlerSet : Bool := false
  notFoundRes : Option String := none

/-- Add inserts the command into the tree at the given space-delimited
path; the empty path stores the command as the root override. -/
def App.add (a : App) (path : String) (cmd : Cmd) : Except String App :=
  if path = rootCommandName then
    Except.ok { a with root := Node.mk (some cmd) a.root.subs }
  else
    match addWalk path cmd a.root (splitSpace path).dropLast
        ((splitSpace path).getLastD "") with
    | Except.error e => Except.error e
    | Except.ok t => Except.ok { a with root := t }

theorem assocFind_append {α : Type} (l1 l2 : List (String × α)) (k : String) :
    assocFind (l1 ++ l2) k =
      match assocFind l1 k with
      | some v => some v
      | none => assocFind l2 k := by
  induction l1 with
  | nil => simp [assocFind]
  | cons hd tl ih =>
    obtain ⟨k0, v0⟩ := hd
    by_cases h0 : k0 = k <;> simp [assocFind, h0, ih]

theorem insertHere_occupied_not_builtin (pathFull : String) (n : Node)
    (name : String) (cmd : Cmd) (old : Node)
    (hocc : assocFind n.subs name = some old) (hb : isBuiltin name = false) :
    insertHere pathFull n name cmd =
      Except.error ("duplicate command: " ++ pathFull) := by
  simp [insertHere, hocc, hb]

theorem insertHere_occupied_builtin (pathFull : String) (n : Node)
    (name : String) (cmd : Cmd) (old : Node)
    (hocc : assocFind n.subs name = some old) (hb : isBuiltin name = true) :
    insertHere pathFull n name cmd =
      Except.ok (Node.mk n.cmd (assocErase n.subs name ++
        [(name, Node.mk (some { cmd with name := name }) [])])) ∧
    assocFind (assocErase n.subs name ++
        [(name, Node.mk (some { cmd with name := name }) [])]) name =
      some (Node.mk (some { cmd with name := name }) []) ∧
    (∀ p, p ≠ name →
      assocFind (assocErase n.subs name ++
        [(name, Node.mk (some { cmd with name := name }) [])]) p =
      assocFind n.subs p) := by
  refine ⟨by simp [insertHere, hocc, hb], ?_, ?_⟩
  · rw [assocFind_append_left _ _ _ (assocFind_assocErase_self _ _)]
    exact assocFind_singleton_self _ _
  · intro p hp
    rw [assocFind_append, assocFind_assocErase_ne _ _ _ hp,
      assocFind_singleton_ne _ _ _ hp]
    cases assocFind n.subs p <;> rfl

theorem addWalk_occupied (pathFull : String) (cmd : Cmd) :
    ∀ (pre : List String) (n : Node) (name : String) (old : Node),
      assocFind ((Node.get n pre).1).subs name = some old →
      (isBuiltin name = false →
        addWalk pathFull cmd n pre name =
          Except.error ("duplicate command: " ++ pathFull)) ∧
      (isBuiltin name = true →
        ∃ t, addWalk pathFull cmd n pre name = Except.ok t ∧
          assocFind ((Node.get t pre).1).subs name =
            some (Node.mk (some { cmd with name := name }) [])) := by
  intro pre
  induction pre with
  | nil =>
    intro n name old hocc
    simp only [Node.get] at hocc
    constructor
    · intro hb
      simpa [addWalk] using
        insertHere_occupied_not_builtin pathFull n name cmd old hocc hb
    · intro hb
      obtain ⟨hins, hfind, _⟩ :=
        insertHere_occupied_builtin pathFull n name cmd old hocc hb
      refine ⟨Node.mk n.cmd (assocErase n.subs name ++
        [(name, Node.mk (some { cmd with name := name }) [])]), ?_, ?_⟩
      · simpa [addWalk] using hins
      · exact hfind
  | cons p rest ih =>
    intro n name old hocc
    cases hf : assocFind n.subs p with
    | none =>
      have hcur : (Node.get n (p :: rest)).1 = n := by simp [Node.get, hf]
      rw [hcur] at hocc
      have hpn : p ≠ name := by
        intro hpe
        rw [hpe, hocc] at hf
        cases hf
      constructor
      · intro hb
        simpa [addWalk, hf] using
          insertHere_occupied_not_builtin pathFull n name cmd old hocc hb
      · intro hb
        obtain ⟨hins, hfind, hpres⟩ :=
          insertHere_occupied_builtin pathFull n name cmd old hocc hb
        refine ⟨Node.mk n.cmd (assocErase n.subs name ++
          [(name, Node.mk (some { cmd with name := name }) [])]), ?_, ?_⟩
        · simpa [addWalk, hf] using hins
        · have hstop : assocFind (Node.mk n.cmd (assocErase n.subs name ++
              [(name, Node.mk (some { cmd with name := name }) [])])).subs p = none := by
            show assocFind (assocErase n.subs name ++
              [(name, Node.mk (some { cmd with name := name }) [])]) p = none
            rw [hpres p hpn]
            exact hf
          rw [Node.get_stop _ _ _ hstop]
          exact hfind
    | some child =>
      have hcur : Node.get n (p :: rest) = Node.get child rest := by
        simp [Node.get, hf]
      rw [hcur] at hocc
      obtain ⟨iherr, ihok⟩ := ih child name old hocc
      constructor
      · intro hb
        simp [addWalk, hf, iherr hb]
      · intro hb
        obtain ⟨c2, hc2, hfind⟩ := ihok hb
        refine ⟨Node.mk n.cmd (assocSet n.subs p c2), by simp [addWalk, hf, hc2], ?_⟩
        have hstep : assocFind (Node.mk n.cmd (assocSet n.subs p c2)).subs p = some c2 :=
          assocFind_assocSet_self n.subs p c2
        rw [Node.get_step _ _ _ _ hstep]
        exact hfind

/-- C3: the builtin names are exactly "version" and "help"; registering a
command at an occupied non-builtin path fails with a duplicate-command
error (no tree is produced, so the existing node is kept), while
registering at an occupied builtin name succeeds and silently replaces the
existing node with the new command. -/
theorem add_duplicate_policy (a : App) (path : String) (cmd : Cmd)
    (hroot : path ≠ rootCommandName) :
    (∀ s, isBuiltin s = true ↔ s = "version" ∨ s = "help") ∧
    (∀ old,
      assocFind ((Node.get a.root ((splitSpace path).dropLast)).1).subs
          ((splitSpace path).getLastD "") = some old →
      (isBuiltin ((splitSpace path).getLastD "") = false →
        a.add path cmd = Except.error ("duplicate command: " ++ path)) ∧
      (isBuiltin ((splitSpace path).getLastD "") = true →
        ∃ a2, a.add path cmd = Except.ok a2 ∧
          assocFind ((Node.get a2.root ((splitSpace path).dropLast)).1).subs
              ((splitSpace path).getLastD "") =
            some (Node.mk (some { cmd with name := (splitSpace path).getLastD "" }) []))) := by
  constructor
  · intro s
    by_cases h1 : s = "version" <;> by_cases h2 : s = "help" <;>
      simp [isBuiltin, h1, h2]
  · intro old hocc
    obtain ⟨herr, hok⟩ := addWalk_occupied path cmd
      ((splitSpace path).dropLast) a.root ((splitSpace path).getLastD "") old hocc
    constructor
    · intro hb
      have h2 := herr hb
      simp only [App.add, if_neg hroot]
      rw [h2]
    · intro hb
      obtain ⟨t, ht, hfind⟩ := hok hb
      refine ⟨{ a with root := t }, ?_, hfind⟩
      simp only [App.add, if_neg hroot]
      rw [ht]

/-- Witness for C3 at a concrete application: the root already holds a
command named "x" and one named "version"; re-registering "x" fails with
the duplicate-command error, re-registering "version" succeeds and the
"version" child becomes the new command. -/
theorem add_duplicate_policy_witness :
    App.add
        { name := "app",
          root := Node.mk none
            [("x", Node.mk (some { name := "x" }) []),
             ("version", Node.mk (some { name := "version" }) [])] }
        "x" { name := "new" } = Except.error ("duplicate command: x") ∧
    ∃ a2,
      App.add
          { name := "app",
            root := Node.mk none
              [("x", Node.mk (some { name := "x" }) []),
               ("version", Node.mk (some { name := "version" }) [])] }
          "version" { name := "new" } = Except.ok a2 ∧
      assocFind ((Node.get a2.root ((splitSpace "version").dropLast)).1).subs
          ((splitSpace "version").getLastD "") =
        some (Node.mk (some { name := (splitSpace "version").getLastD "" }) []) := by
  constructor
  · exact ((add_duplicate_policy
      { name := "app",
        root := Node.mk none
          [("x", Node.mk (some { name := "x" }) []),
           ("version", Node.mk (some { name := "version" }) [])] }
      "x" { name := "new" } (by decide)).2
      (Node.mk (some { name := "x" }) []) rfl).1 rfl
  · exact ((add_duplicate_policy
      { name := "app",
        root := Node.mk none
          [("x", Node.mk (some { name := "x" }) []),
           ("version", Node.mk (some { name := "version" }) [])] }
      "version" { name := "new" } (by decide)).2
      (Node.mk (some { name := "version" }) []) rfl).2 rfl

/-! ## Dispatch (execute / safeExecute / Parse)

Execution is modelled with an explicit event trace recording which
callbacks ran (with the positional arguments bound into the context), the
not-found handler invocation, the banner output and the panic handler.
`ExecOut` distinguishes a normal return (carrying the Go error, `none` =
nil) from an unwinding panic. -/

/-- Observable dispatch events. -/
inductive Event where
  | beforeRun (name : String)
  | actionRun (name : String) (posArgs : List String)
  | afterRun (name : String)
  | panicHandled (v : String)
  | notFound (s : String)
  | banner (out : List String)
deriving DecidableEq, Repr

/-- Result of running `execute`: a normal return with an optional error,
or a propagating panic carrying the panic value. -/
inductive ExecOut where
  | ret (e : Option String)
  | panicked (v : String)
deriving DecidableEq, Repr

/-- Test whether the first character of the string is `c` (the Go byte
test `s[0] == c` on the ASCII inputs at hand). -/
def headIs (c : Char) (s : String) : Bool :=
  match s.data with
  | [] => false
  | x :: _ => x = c

/-- Parse an argument list against an EMPTY flag set with
`flag.ContinueOnError` (the case `Command.Flags == nil`, where execute
creates a fresh flag set): parsing stops at the first argument that is
shorter than two characters or does not begin with a dash (those and the
rest become the positional arguments), a lone "--" terminates flag parsing
and is dropped, and any other dash-led token is a syntax error or an
unknown-flag error since no flag is defined. -/
def fsParseEmpty : List String → Except String (List String)
  | [] => Except.ok []
  | s :: rest =>
    if s.length < 2 ∨ headIs (Char.ofNat 45) s = false then Except.ok (s :: rest)
    else if s = "--" then Except.ok rest
    else
      let minuses : Nat := if s.data.get? 1 = some (Char.ofNat 45) then 2 else 1
      let name : String := String.mk (s.data.drop minuses)
      if name = "" ∨ headIs (Char.ofNat 45) name = true ∨
          headIs (Char.ofNat 61) name = true then
        Except.error ("bad flag syntax: " ++ s)
      else
        Except.error ("flag provided but not defined: -" ++ name)

/-- Flag parsing of a command: its own flag set when present, otherwise
the fresh empty flag set created by execute. -/
def cmdParse (c : Cmd) : List String → Except String (List String) :=
  match c.flagsParse with
  | none => fsParseEmpty
  | some f => f

/-- Tail of execute after the Before hook: the nil-action check, then the
Action with the After hook deferred; the deferred After runs even when the
Action returns an error or panics, its error is kept only when the named
return was still nil (first error wins), and a panic in After supersedes
the ongoing unwinding. -/
def runActionAfter (c : Cmd) (posArgs : List String) : List Event × ExecOut :=
  match c.action with
  | none => ([], ExecOut.ret (some "onii-chan.. no action defined"))
  | some ares =>
    match c.after with
    | none =>
      match ares with
      | CbRes.ok => ([Event.actionRun c.name posArgs], ExecOut.ret none)
      | CbRes.err e => ([Event.actionRun c.name posArgs], ExecOut.ret (some e))
      | CbRes.panics v => ([Event.actionRun c.name posArgs], ExecOut.panicked v)
    | some afterRes =>
      let evs := [Event.actionRun c.name posArgs, Event.afterRun c.name]
      match ares, afterRes with
      | CbRes.ok, CbRes.ok => (evs, ExecOut.ret none)
      | CbRes.ok, CbRes.err e2 => (evs, ExecOut.ret (some e2))
      | CbRes.ok, CbRes.panics v2 => (evs, ExecOut.panicked v2)
      | CbRes.err e, CbRes.ok => (evs, ExecOut.ret (some e))
      | CbRes.err e, CbRes.err _ => (evs, ExecOut.ret (some e))
      | CbRes.err _, CbRes.panics v2 => (evs, ExecOut.panicked v2)
      | CbRes.panics v, CbRes.ok => (evs, ExecOut.panicked v)
      | CbRes.panics v, CbRes.err _ => (evs, ExecOut.panicked v)
      | CbRes.panics _, CbRes.panics v2 => (evs, ExecOut.panicked v2)

/-- Execute: parse `args[1:]` against the command's flag set (a parse
error returns immediately), run Before (an error or panic returns before
the After hook is deferred, so After is skipped), then the nil-action
check, then Action with After deferred. -/
def execute (c : Cmd) (args : List String) : List Event × ExecOut :=
  match cmdParse c (args.drop 1) with
  | Except.error e => ([], ExecOut.ret (some e))
  | Except.ok posArgs =>
    match c.before with
    | none => runActionAfter c posArgs
    | some CbRes.ok =>
      let r := runActionAfter c posArgs
      (Event.beforeRun c.name :: r.1, r.2)
    | some (CbRes.err e) => ([Event.beforeRun c.name], ExecOut.ret (some e))
    | some (CbRes.panics v) => ([Event.beforeRun c.name], ExecOut.panicked v)

/-- Recover wrapper: a panic escaping execute is intercepted; when a panic
handler is configured it is invoked and the (nil) named error is returned,
otherwise the panic value is wrapped into a "panic: ..." error. -/
def safeExecute (a : App) (c : Cmd) (args : List String) :
    List Event × Option String :=
  match execute c args with
  | (evs, ExecOut.ret e) => (evs, e)
  | (evs, ExecOut.panicked v) =>
    if a.panicHandlerSet then (evs ++ [Event.panicHandled v], none)
    else (evs, some ("panic: " ++ v))

/-- Lines written by PrintRootHelp: the application name with the optional
version, then the optional description; it always returns a nil error. -/
def PrintRootHelp (a : App) : List String :=
  (if a.version ≠ "" then [a.name ++ " " ++ a.version ++ "\n"]
   else [a.name ++ "\n"]) ++
  (if a.desc ≠ "" then ["\n" ++ a.desc ++ "\n"] else [])

/-- Parse: empty input tries the root override (executed with the
single-element sentinel argument list), then a registered "help" command,
then the built-in banner; non-empty input resolves against the tree and
either runs the not-found handler (when the node reached owns no command)
or dispatches the command through the recover wrapper with the full
argument list. -/
def Parse (a : App) (args : List String) : List Event × ExecOut :=
  match args with
  | [] =>
    match a.root.cmd with
    | some c => execute c [rootCommandName]
    | none =>
      match assocFind a.root.subs "help" with
      | some h =>
        match h.cmd with
        | some hc => execute hc ["help"]
        | none => ([Event.banner (PrintRootHelp a)], ExecOut.ret none)
      | none => ([Event.banner (PrintRootHelp a)], ExecOut.ret none)
  | a0 :: rest0 =>
    match (Node.get a.root (a0 :: rest0)).1.cmd with
    | none => ([Event.notFound a0], ExecOut.ret a.notFoundRes)
    | some c =>
      let r := safeExecute a c (a0 :: rest0)
      (r.1, ExecOut.ret r.2)

/-- C5: dispatching the empty argument list executes exactly one branch,
in order with no fallthrough: a registered root override runs with the
synthetic single-element sentinel argument list; otherwise a registered
"help" command runs; otherwise the built-in banner is printed and dispatch
returns no error. -/
theorem parse_empty_branch_order (a : App) :
    (∀ c, a.root.cmd = some c → Parse a [] = execute c [rootCommandName]) ∧
    (a.root.cmd = none →
      ∀ h hc, assocFind a.root.subs "help" = some h → h.cmd = some hc →
        Parse a [] = execute hc ["help"]) ∧
    (a.root.cmd = none →
      (∀ h, assocFind a.root.subs "help" = some h → h.cmd = none) →
      Parse a [] = ([Event.banner (PrintRootHelp a)], ExecOut.ret none)) := by
  refine ⟨?_, ?_, ?_⟩
  · intro c hc
    simp [Parse, hc]
  · intro h0 h hc hfind hcmd
    simp [Parse, h0, hfind, hcmd]
  · intro h0 hno
    cases hfind : assocFind a.root.subs "help" with
    | none => simp [Parse, h0, hfind]
    | some h => simp [Parse, h0, hfind, hno h hfind]

/-- Witness for C5 at a concrete application with no root override and no
"help" command: the banner branch runs and returns no error. -/
theorem parse_empty_branch_order_witness :
    Parse { name := "app" } [] = ([Event.banner ["app\n"]], ExecOut.ret none) := by
  have h := (parse_empty_branch_order { name := "app" }).2.2 rfl
    (by intro h hfind; simp [Node.subs, assocFind] at hfind)
  simpa [PrintRootHelp] using h

/-- C7: a non-empty argument list whose resolution reaches a node owning
no command invokes the not-found handler exactly once (with the first
argument) and executes no command action. -/
theorem parse_not_found_spec (a : App) (a0 : String) (rest : List String)
    (h : ((Node.get a.root (a0 :: rest)).1).cmd = none) :
    Parse a (a0 :: rest) = ([Event.notFound a0], ExecOut.ret a.notFoundRes) ∧
    (∀ e ∈ (Parse a (a0 :: rest)).1, ∀ nm pos, e ≠ Event.actionRun nm pos) := by
  have h1 : Parse a (a0 :: rest) = ([Event.notFound a0], ExecOut.ret a.notFoundRes) := by
    simp [Parse, h]
  refine ⟨h1, ?_⟩
  intro e he nm pos
  rw [h1] at he
  simp only [List.mem_singleton] at he
  subst he
  intro hc
  exact Event.noConfusion hc

/-- Witness for C7 at the default application with an unknown argument:
the not-found handler runs once with nil outcome and nothing else. -/
theorem parse_not_found_spec_witness :
    Parse {} ["zzz"] = ([Event.notFound "zzz"], ExecOut.ret none) :=
  (parse_not_found_spec {} "zzz" [] rfl).1

/-- C6: a panic escaping execute (raised in Before, Action or After) does
not propagate out of dispatch: with a panic handler configured,
safeExecute routes the value to the handler and returns a nil error;
without one it returns a non-nil error prefixed "panic: "; and dispatch of
a resolved command through Parse always yields a normal return built from
safeExecute. -/
theorem safeExecute_panic_routing (a : App) (c : Cmd) (args : List String)
    (evs : List Event) (v : String)
    (h : execute c args = (evs, ExecOut.panicked v)) :
    (a.panicHandlerSet = true →
      safeExecute a c args = (evs ++ [Event.panicHandled v], none)) ∧
    (a.panicHandlerSet = false →
      safeExecute a c args = (evs, some ("panic: " ++ v))) ∧
    (∀ a0 rest0, args = a0 :: rest0 →
      (Node.get a.root args).1.cmd = some c →
      Parse a args =
        ((safeExecute a c args).1, ExecOut.ret (safeExecute a c args).2)) := by
  refine ⟨?_, ?_, ?_⟩
  · intro hset
    simp [safeExecute, h, hset]
  · intro hset
    simp [safeExecute, h, hset]
  · intro a0 rest0 harg hres
    subst harg
    simp [Parse, hres]

/-- Witness for C6: a command whose action panics, dispatched on an
application without a panic handler, yields the wrapped "panic: " error
from safeExecute. -/
theorem safeExecute_panic_routing_witness :
    safeExecute {} { name := "boom", action := some (CbRes.panics "ouch") } ["boom"] =
      ([Event.actionRun "boom" []], some "panic: ouch") := by
  have h := (safeExecute_panic_routing {}
    { name := "boom", action := some (CbRes.panics "ouch") } ["boom"]
    [Event.actionRun "boom" []] "ouch" rfl).2.1 rfl
  simpa using h

/-! ## After-hook semantics (claim C2)

In execute the deferred call of the After hook is installed only after
the Before hook has returned nil and the nil-action check passed; so a
failing Before skips After entirely, while a failing Action still runs
After, whose error is kept only when the Action returned nil. -/

/-- Command whose Before hook fails while an After hook is present: it
exhibits the skipped After hook. -/
def cmdBeforeFails : Cmd :=
  { name := "c", before := some (CbRes.err "boom"),
    action := some CbRes.ok, after := some CbRes.ok }

/-- C2 counterexample: for a dispatched command with a non-nil after
callback whose before callback returns an error, the after callback does
NOT execute: dispatch returns the before error and the trace holds only
the before event. -/
theorem execute_before_error_skips_after_cex :
    cmdBeforeFails.after.isSome = true ∧
    execute cmdBeforeFails ["c"] =
      ([Event.beforeRun "c"], ExecOut.ret (some "boom")) ∧
    Event.afterRun "c" ∉ (execute cmdBeforeFails ["c"]).1 := by
  refine ⟨rfl, rfl, ?_⟩
  intro hmem
  simp [execute, cmdParse, cmdBeforeFails, fsParseEmpty] at hmem

/-- C2 amended: when the before hook returns an error, dispatch returns
that error and neither the action nor the after hook runs; when the
before hook is absent or returns nil and the action returns an error, a
present after hook (returning nil or an error) still executes and the
action's error is the one surfaced (first error wins). -/
theorem execute_after_hook_amended (c : Cmd) (args posArgs : List String)
    (hp : cmdParse c (args.drop 1) = Except.ok posArgs) :
    (∀ e, c.before = some (CbRes.err e) →
      execute c args = ([Event.beforeRun c.name], ExecOut.ret (some e))) ∧
    (∀ e, (c.before = none ∨ c.before = some CbRes.ok) →
      c.action = some (CbRes.err e) →
      (c.after = some CbRes.ok ∨ (∃ e2, c.after = some (CbRes.err e2))) →
      (execute c args).2 = ExecOut.ret (some e) ∧
      Event.afterRun c.name ∈ (execute c args).1) := by
  rw [List.drop_one] at hp
  constructor
  · intro e hb
    simp [execute, hp, hb]
  · intro e hbe hac haf
    rcases haf with haf | ⟨e2, haf⟩ <;> rcases hbe with hbe | hbe <;>
      simp [execute, hp, hbe, runActionAfter, hac, haf]

/-- Command with a failing action and a failing after hook, both present:
it exhibits first-error-wins with the after hook still run. -/
def cmdActionAfterFail : Cmd :=
  { name := "c", before := some CbRes.ok,
    action := some (CbRes.err "ae"), after := some (CbRes.err "xe") }

/-- Witness for the amended C2: a command whose action fails with "ae" and
whose after hook fails with "xe" surfaces "ae" while the after hook still
ran. -/
theorem execute_after_hook_amended_witness :
    (execute cmdActionAfterFail ["c"]).2 = ExecOut.ret (some "ae") ∧
    Event.afterRun "c" ∈ (execute cmdActionAfterFail ["c"]).1 :=
  (execute_after_hook_amended cmdActionAfterFail ["c"] [] rfl).2 "ae"
    (Or.inr rfl) rfl (Or.inr ⟨"xe", rfl⟩)

/-! ## Two-segment dispatch (claim C1)

Parse hands the FULL argument list to execute, which strips only
`args[0]` before flag parsing; for a command registered at a two-segment
path "a b" the second path segment "b" therefore lands in the positional
arguments ahead of any extra argument. -/

/-- Command registered first so that the "a" node exists. -/
def cmdA : Cmd := { name := "a", action := some CbRes.ok }

/-- Command registered at the two-segment path "a b". -/
def cmdAB : Cmd := { name := "a b", action := some CbRes.ok }

/-- The application obtained by registering "a" and then "a b". -/
def app1 : App :=
  { name := "app",
    root := Node.mk none
      [("a", Node.mk (some { cmdA with name := "a" })
        [("b", Node.mk (some { cmdAB with name := "b" }) [])])] }

theorem app1_registration :
    (do
      let x ← App.add { name := "app" } "a" cmdA
      App.add x "a b" cmdAB) = Except.ok app1 := rfl

/-- C1 counterexample: dispatching ["a", "b", "extra"] on an application
with a command registered at "a b" executes that command, but the
positional-argument view of the resulting context is ["b", "extra"], so
index 0 holds "b", not "extra". -/
theorem two_segment_dispatch_cex :
    Parse app1 ["a", "b", "extra"] =
      ([Event.actionRun "b" ["b", "extra"]], ExecOut.ret none) ∧
    Args.Get ["b", "extra"] 0 ≠ "extra" := by
  refine ⟨rfl, ?_⟩
  decide

/-- C1 amended: dispatching ["a", "b", "extra"] on an application with a
command at path "a b" resolves to that command with resolution leftover
["extra"] and executes it, but the flag set is parsed against args[1:],
so the positional-argument view of the resulting context is
["b", "extra"]: index 0 holds the final path segment "b" and the extra
argument appears at index 1. -/
theorem two_segment_dispatch_amended (a : App) (c : Cmd) (na nb : Node)
    (h1 : assocFind a.root.subs "a" = some na)
    (h2 : assocFind na.subs "b" = some nb)
    (h3 : assocFind nb.subs "extra" = none)
    (h4 : nb.cmd = some c) (h5 : c.flagsParse = none) :
    Node.get a.root ["a", "b", "extra"] = (nb, ["extra"]) ∧
    Parse a ["a", "b", "extra"] =
      ((safeExecute a c ["a", "b", "extra"]).1,
        ExecOut.ret (safeExecute a c ["a", "b", "extra"]).2) ∧
    cmdParse c (["a", "b", "extra"].drop 1) = Except.ok ["b", "extra"] ∧
    Args.Get ["b", "extra"] 0 = "b" ∧ Args.Get ["b", "extra"] 1 = "extra" := by
  have hget : Node.get a.root ["a", "b", "extra"] = (nb, ["extra"]) := by
    rw [Node.get_step _ _ _ _ h1, Node.get_step _ _ _ _ h2,
      Node.get_stop _ _ _ h3]
  refine ⟨hget, ?_, ?_, by decide, by decide⟩
  · simp [Parse, hget, h4]
  · simp [cmdParse, h5]
    rfl

/-- Witness for the amended C1 at the concrete registered application. -/
theorem two_segment_dispatch_amended_witness :
    Node.get app1.root ["a", "b", "extra"] =
      (Node.mk (some { cmdAB with name := "b" }) [], ["extra"]) ∧
    Parse app1 ["a", "b", "extra"] =
      ((safeExecute app1 { cmdAB with name := "b" } ["a", "b", "extra"]).1,
        ExecOut.ret
          (safeExecute app1 { cmdAB with name := "b" } ["a", "b", "extra"]).2) ∧
    cmdParse { cmdAB with name := "b" } (["a", "b", "extra"].drop 1) =
      Except.ok ["b", "extra"] ∧
    Args.Get ["b", "extra"] 0 = "b" ∧ Args.Get ["b", "extra"] 1 = "extra" :=
  two_segment_dispatch_amended app1 { cmdAB with name := "b" }
    (Node.mk (some { cmdA with name := "a" })
      [("b", Node.mk (some { cmdAB with name := "b" }) [])])
    (Node.mk (some { cmdAB with name := "b" }) [])
    rfl rfl rfl rfl rfl

end FyrnaCli
